import Mathlib

/-!
A shallow embedding of the boids simulation in `src/main.rs` (repository
Tachytaenius/boids).  The `f32` arithmetic of the source is idealised as real
arithmetic; `glam::Vec2` becomes the structure `Vec2` below, and the per-frame
`update` method of the `EventHandler` implementation becomes the function
`Boids.update` on a `List Boid`.  The global thread rng is modelled as a
stream `rand : ℕ → ℝ` of unit-interval samples together with a counter that
advances exactly when the source draws from the rng.
-/

namespace Boids

/-- `SIMULATION_WIDTH` from the source (an `i32` cast to `f32` where used). -/
def SIMULATION_WIDTH : ℝ := 800

/-- `SIMULATION_HEIGHT` from the source. -/
def SIMULATION_HEIGHT : ℝ := 600

/-- `MARGIN` from the source. -/
def MARGIN : ℝ := 128

/-- `BOID_START_ACCEL` from the source. -/
def BOID_START_ACCEL : ℝ := 10

/-- `std::f32::consts::TAU`, the full turn. -/
noncomputable def TAU : ℝ := 2 * Real.pi

/-- `glam::Vec2`, a two-dimensional vector of (idealised) `f32`s. -/
structure Vec2 where
  x : ℝ
  y : ℝ

namespace Vec2

noncomputable instance : DecidableEq Vec2 := Classical.decEq _

instance : Zero Vec2 := ⟨⟨0, 0⟩⟩

instance : Add Vec2 := ⟨fun v w => ⟨v.x + w.x, v.y + w.y⟩⟩

instance : Sub Vec2 := ⟨fun v w => ⟨v.x - w.x, v.y - w.y⟩⟩

instance : Neg Vec2 := ⟨fun v => ⟨-v.x, -v.y⟩⟩

/-- Scalar multiplication `v * s`, as in `glam` (vector on the left). -/
instance : HMul Vec2 ℝ Vec2 := ⟨fun v s => ⟨v.x * s, v.y * s⟩⟩

/-- Scalar division `v / s`, as in `glam`. -/
noncomputable instance : HDiv Vec2 ℝ Vec2 := ⟨fun v s => ⟨v.x / s, v.y / s⟩⟩

/-- `Vec2::length`: the euclidean norm `√(x² + y²)`. -/
noncomputable def length (v : Vec2) : ℝ := Real.sqrt (v.x * v.x + v.y * v.y)

/-- `Vec2::normalize`: `v / ‖v‖` (the source never applies it to a
zero-length vector; over ℝ division by zero yields the zero vector). -/
noncomputable def normalize (v : Vec2) : Vec2 := v / v.length

/-- `Vec2::normalize_or_zero`: the zero vector when `v` cannot be
normalised, `v / ‖v‖` otherwise. -/
noncomputable def normalizeOrZero (v : Vec2) : Vec2 :=
  if v = 0 then 0 else v / v.length

/-- `Vec2::from_angle`: the unit vector `(cos θ, sin θ)`. -/
noncomputable def fromAngle (θ : ℝ) : Vec2 := ⟨Real.cos θ, Real.sin θ⟩

end Vec2

/-- The `Boid` struct of the source: position, velocity and the per-boid
tunable scalars. -/
structure Boid where
  position : Vec2
  velocity : Vec2
  scale : ℝ
  min_speed : ℝ
  max_speed : ℝ
  protected_range : ℝ
  visual_range : ℝ
  avoidance_factor : ℝ
  matching_factor : ℝ
  cohesion_factor : ℝ
  back_to_bounds_factor : ℝ

/-- The mutable accumulators of the `process_other_boid` closure:
`close`, `neighbour_position_sum`, `neighbour_velocity_sum`, `neighbours`. -/
structure Accum where
  close : Vec2
  posSum : Vec2
  velSum : Vec2
  neighbours : ℕ

/-- The body of the `process_other_boid` closure, folded over one other boid. -/
noncomputable def processOtherBoid (boid : Boid) (acc : Accum) (other : Boid) : Accum :=
  let otherToBoid := boid.position - other.position
  let acc1 :=
    if otherToBoid.length ≤ boid.visual_range then
      { acc with
        posSum := acc.posSum + other.position
        velSum := acc.velSum + other.velocity
        neighbours := acc.neighbours + 1 }
    else acc
  if otherToBoid.length ≤ boid.protected_range then
    { acc1 with close := acc1.close + otherToBoid }
  else acc1

/-- The neighbour scan: `process_other_boid` folded over `boids_low` and
`boids_high` (passed here as one list), starting from zeroed accumulators. -/
noncomputable def scanBoids (boid : Boid) (others : List Boid) : Accum :=
  others.foldl (processOtherBoid boid) ⟨0, 0, 0, 0⟩

/-- The velocity after the three neighbour forces (separation, then — only
when the neighbour counter is positive — cohesion and alignment), before
speed governance. -/
noncomputable def forcesVelocity (dt : ℝ) (boid : Boid) (others : List Boid) : Vec2 :=
  let acc := scanBoids boid others
  let v1 := boid.velocity + acc.close * boid.avoidance_factor * dt
  if 0 < acc.neighbours then
    v1 + (acc.posSum / (acc.neighbours : ℝ) - boid.position) * boid.cohesion_factor * dt
       + acc.velSum / (acc.neighbours : ℝ) * boid.matching_factor * dt
  else v1

/-- The `dt > 0` part of the "enforce min and max speed" block: a zero
velocity is replaced by a random direction at speed `BOID_START_ACCEL * dt`,
then a slow velocity is rescaled up to `minSpeed`.  `r` is the raw rng sample
in the random branch (the source draws `rng.gen::<f32>()` and multiplies by
`TAU`). -/
noncomputable def governSpeedFloor (dt r minSpeed : ℝ) (v : Vec2) : Vec2 :=
  if 0 < dt then
    let vz := if v = 0 then Vec2.fromAngle (r * TAU) * BOID_START_ACCEL * dt else v
    if vz.length < minSpeed then vz.normalizeOrZero * minSpeed else vz
  else v

/-- The whole "enforce min and max speed" block: the `dt > 0` floor part,
followed by the unconditional max-speed clamp. -/
noncomputable def governSpeed (dt r minSpeed maxSpeed : ℝ) (v : Vec2) : Vec2 :=
  let va := governSpeedFloor dt r minSpeed v
  if maxSpeed < va.length then va.normalize * maxSpeed else va

/-- The raw `back_to_bounds` accumulator: the four axis-aligned margin tests
of the source, before normalisation and scaling. -/
noncomputable def backToBounds (pos : Vec2) : Vec2 :=
  let b0 : Vec2 := 0
  let b1 := if pos.x < MARGIN then (⟨b0.x + 1, b0.y⟩ : Vec2) else b0
  let b2 := if SIMULATION_WIDTH - MARGIN < pos.x then (⟨b1.x - 1, b1.y⟩ : Vec2) else b1
  let b3 := if pos.y < MARGIN then (⟨b2.x, b2.y + 1⟩ : Vec2) else b2
  if SIMULATION_HEIGHT - MARGIN < pos.y then (⟨b3.x, b3.y - 1⟩ : Vec2) else b3

/-- One boid's full update (the body of the `for i in 0..self.boids.len()`
loop): neighbour forces, speed governance, boundary correction, integration.
Returns the updated boid together with whether the rng was consumed
(the random-direction branch ran). -/
noncomputable def updateBoidCore (dt r : ℝ) (boid : Boid) (others : List Boid) :
    Boid × Bool :=
  let v2 := forcesVelocity dt boid others
  let consumed : Bool := if 0 < dt ∧ v2 = 0 then true else false
  let v4 := governSpeed dt r boid.min_speed boid.max_speed v2
  let btb := (backToBounds boid.position).normalizeOrZero * boid.back_to_bounds_factor
  let v5 := v4 + btb * dt
  ({ boid with velocity := v5, position := boid.position + v5 * dt }, consumed)

/-- One boid's full update, result only. -/
noncomputable def updateBoid (dt r : ℝ) (boid : Boid) (others : List Boid) : Boid :=
  (updateBoidCore dt r boid others).1

/-- The sequential in-place loop of the source: `done` holds the
already-updated boids below the current index, `todo` the not-yet-updated
ones; the current boid's scan reads `done ++ rest`, exactly as
`split_at_mut`/`split_first_mut` expose `boids_low` and `boids_high`.
`k` is the rng counter. -/
noncomputable def stepAux (dt : ℝ) (rand : ℕ → ℝ) :
    ℕ → List Boid → List Boid → List Boid
  | _, done, [] => done
  | k, done, b :: rest =>
    let p := updateBoidCore dt (rand k) b (done ++ rest)
    stepAux dt rand (if p.2 then k + 1 else k) (done ++ [p.1]) rest

/-- The per-frame `update` of the source, on the boid collection. -/
noncomputable def update (dt : ℝ) (rand : ℕ → ℝ) (boids : List Boid) : List Boid :=
  stepAux dt rand 0 [] boids

/-! Spec-side definitions, written from the specification's words, to be
compared with the definitions translated from the source. -/

/-- The snapshot-based simultaneous step required by the spec: agent `i`
is updated against the collection exactly as it was when the step was
entered, with itself removed. -/
noncomputable def updateSnapshotAux (dt : ℝ) (rand : ℕ → ℝ) (orig : List Boid) :
    ℕ → List Boid → List Boid
  | _, [] => []
  | i, b :: rest =>
    (updateBoidCore dt (rand i) b (orig.take i ++ orig.drop (i + 1))).1
      :: updateSnapshotAux dt rand orig (i + 1) rest

/-- The snapshot-based simultaneous step on the whole collection. -/
noncomputable def updateSnapshot (dt : ℝ) (rand : ℕ → ℝ) (boids : List Boid) :
    List Boid :=
  updateSnapshotAux dt rand boids 0 boids

/-- The boundary correction as the spec words it: `dt * back_to_bounds_factor`
times the unit-normalised sum of the triggered axis components, or the zero
vector if no condition triggered. -/
noncomputable def specBoundaryCorrection (pos : Vec2) (factor dt : ℝ) : Vec2 :=
  let sum : Vec2 :=
    (if pos.x < MARGIN then (⟨1, 0⟩ : Vec2) else 0) +
    (if SIMULATION_WIDTH - MARGIN < pos.x then (⟨-1, 0⟩ : Vec2) else 0) +
    (if pos.y < MARGIN then (⟨0, 1⟩ : Vec2) else 0) +
    (if SIMULATION_HEIGHT - MARGIN < pos.y then (⟨0, -1⟩ : Vec2) else 0)
  (if sum = 0 then 0 else sum / sum.length) * (dt * factor)

/-- The cohesion term as the spec words it:
`(position_sum/neighbour_count − position) * cohesion_factor * dt`. -/
noncomputable def specCohesionTerm (dt : ℝ) (b : Boid) (acc : Accum) : Vec2 :=
  (acc.posSum / (acc.neighbours : ℝ) - b.position) * b.cohesion_factor * dt

/-- The alignment term as the spec words it: the raw averaged neighbour
velocity `velocity_sum/neighbour_count * matching_factor * dt`. -/
noncomputable def specAlignmentTerm (dt : ℝ) (b : Boid) (acc : Accum) : Vec2 :=
  acc.velSum / (acc.neighbours : ℝ) * b.matching_factor * dt

/-- Speed governance with an explicit zero-vector guard on the max-speed
branch (the guard the source omits); used to state that the omission is
harmless. -/
noncomputable def governSpeedGuarded (dt r minSpeed maxSpeed : ℝ) (v : Vec2) : Vec2 :=
  let va := governSpeedFloor dt r minSpeed v
  if maxSpeed < va.length then
    (if va = 0 then 0 else va / va.length * maxSpeed)
  else va

/-- Repeated application of the per-boid step, with per-step rng samples
`r` and per-step lists `os` of the other agents as the current agent's scan
sees them. -/
noncomputable def updateBoidIter (dt : ℝ) (r : ℕ → ℝ) (os : ℕ → List Boid)
    (b : Boid) : ℕ → Boid
  | 0 => b
  | k + 1 => updateBoid dt (r k) (updateBoidIter dt r os b k) (os k)

/-- A position on which none of the four boundary conditions triggers. -/
def insideMargins (p : Vec2) : Prop :=
  MARGIN ≤ p.x ∧ p.x ≤ SIMULATION_WIDTH - MARGIN ∧
    MARGIN ≤ p.y ∧ p.y ≤ SIMULATION_HEIGHT - MARGIN

/-- The straight-line point reached after `j` steps of size `velocity * dt`. -/
noncomputable def linePoint (b : Boid) (dt : ℝ) (j : ℕ) : Vec2 :=
  b.position + b.velocity * ((j : ℝ) * dt)

/-- The effect the step has on one boid when `dt = 0`: only the max-speed
clamp can change anything. -/
noncomputable def clampVelocity (b : Boid) : Boid :=
  { b with velocity :=
      if b.max_speed < b.velocity.length then b.velocity.normalize * b.max_speed
      else b.velocity }

/-! Concrete scenarios. -/

/-- A boid left of the margin, flying at exactly its max speed, with the
reference tunables. -/
def outBoid : Boid := ⟨⟨0, 300⟩, ⟨100, 0⟩, 2, 10, 100, 20, 100, 0.75, 1, 0.5, 150⟩

/-- First boid of the two-boid sequential-vs-snapshot scenario: only the
alignment force is switched on (`matching_factor = 1`, the other factors are
zero), the speed window is wide, and the boundary factor is zero. -/
def seqA : Boid := ⟨⟨0, 0⟩, ⟨1, 0⟩, 2, 0, 1000, 20, 100, 0, 1, 0, 0⟩

/-- Second boid of the sequential-vs-snapshot scenario, 10 units from the
first, well inside both ranges. -/
def seqB : Boid := ⟨⟨10, 0⟩, ⟨2, 0⟩, 2, 0, 1000, 20, 100, 0, 1, 0, 0⟩

/-- First boid of the deterministic separation scenario of the spec:
`A = (0,0)`, `protected_range = 20`, `visual_range = 100`,
`avoidance_factor = 1`, nonzero velocity. -/
def pairA : Boid := ⟨⟨0, 0⟩, ⟨1, 0⟩, 2, 10, 100, 20, 100, 1, 1, 0.5, 150⟩

/-- Second boid of the deterministic separation scenario: `B = (10,0)`. -/
def pairB : Boid := ⟨⟨10, 0⟩, ⟨1, 0⟩, 2, 10, 100, 20, 100, 1, 1, 0.5, 150⟩

/-- A boid whose protected range (20) exceeds its visual range (5), with
`avoidance_factor = 1`, a wide speed window and no boundary force. -/
def isoBoid : Boid := ⟨⟨0, 0⟩, ⟨1, 0⟩, 2, 0, 1000, 20, 5, 1, 1, 1, 0⟩

/-- An agent 10 units from `isoBoid`: outside its visual range, inside its
protected range. -/
def isoOther : Boid := ⟨⟨10, 0⟩, ⟨0, 0⟩, 2, 10, 100, 20, 100, 1, 1, 1, 150⟩

/-- A boid at rest with `min_speed = 0`: its speed equals its min speed and
it sits inside the margins with no neighbours. -/
def stuckBoid : Boid := ⟨⟨300, 300⟩, ⟨0, 0⟩, 2, 0, 100, 20, 100, 0.75, 1, 0.5, 150⟩

/-- A boid cruising at exactly its (positive) min speed inside the margins. -/
def cruiseBoid : Boid := ⟨⟨300, 300⟩, ⟨10, 0⟩, 2, 10, 100, 20, 100, 0.75, 1, 0.5, 150⟩

/-- An isolated boid far from anyone, inside the margins. -/
def farBoid : Boid := ⟨⟨300, 300⟩, ⟨10, 0⟩, 2, 10, 100, 20, 100, 0.75, 1, 0.5, 150⟩

/-- A boid 300 units away from `farBoid`. -/
def farOther : Boid := ⟨⟨600, 300⟩, ⟨0, 10⟩, 2, 10, 100, 20, 100, 0.75, 1, 0.5, 150⟩

/-- A boid three times faster than its max speed, inside the margins. -/
def fastBoid : Boid := ⟨⟨300, 300⟩, ⟨300, 0⟩, 2, 10, 100, 20, 100, 0.75, 1, 0.5, 150⟩

/-! ## Vector algebra -/

namespace Vec2

@[simp] theorem zero_def : (0 : Vec2) = ⟨0, 0⟩ := rfl

@[simp] theorem add_def (a b c d : ℝ) : (⟨a, b⟩ + ⟨c, d⟩ : Vec2) = ⟨a + c, b + d⟩ := rfl

@[simp] theorem sub_def (a b c d : ℝ) : (⟨a, b⟩ - ⟨c, d⟩ : Vec2) = ⟨a - c, b - d⟩ := rfl

@[simp] theorem neg_def (a b : ℝ) : (-(⟨a, b⟩ : Vec2)) = ⟨-a, -b⟩ := rfl

@[simp] theorem smul_def (a b s : ℝ) : ((⟨a, b⟩ : Vec2) * s) = ⟨a * s, b * s⟩ := rfl

@[simp] theorem sdiv_def (a b s : ℝ) : ((⟨a, b⟩ : Vec2) / s) = ⟨a / s, b / s⟩ := rfl

@[simp] theorem add_x (v w : Vec2) : (v + w).x = v.x + w.x := rfl

@[simp] theorem add_y (v w : Vec2) : (v + w).y = v.y + w.y := rfl

@[simp] theorem sub_x (v w : Vec2) : (v - w).x = v.x - w.x := rfl

@[simp] theorem sub_y (v w : Vec2) : (v - w).y = v.y - w.y := rfl

@[simp] theorem smul_x (v : Vec2) (s : ℝ) : (v * s).x = v.x * s := rfl

@[simp] theorem smul_y (v : Vec2) (s : ℝ) : (v * s).y = v.y * s := rfl

@[simp] theorem sdiv_x (v : Vec2) (s : ℝ) : (v / s).x = v.x / s := rfl

@[simp] theorem sdiv_y (v : Vec2) (s : ℝ) : (v / s).y = v.y / s := rfl

@[simp] theorem addZero (v : Vec2) : v + 0 = v := by
  obtain ⟨a, b⟩ := v; simp

@[simp] theorem zeroAdd (v : Vec2) : 0 + v = v := by
  obtain ⟨a, b⟩ := v; simp

@[simp] theorem zeroSmul (s : ℝ) : (0 : Vec2) * s = 0 := by simp

@[simp] theorem smulZero (v : Vec2) : v * (0 : ℝ) = 0 := by
  obtain ⟨a, b⟩ := v; simp

@[simp] theorem add_zero_mk (v : Vec2) : v + ⟨0, 0⟩ = v := by
  obtain ⟨a, b⟩ := v; simp

@[simp] theorem zero_mk_add (v : Vec2) : (⟨0, 0⟩ : Vec2) + v = v := by
  obtain ⟨a, b⟩ := v; simp

@[simp] theorem smul_zero_mk (s : ℝ) : (⟨0, 0⟩ : Vec2) * s = ⟨0, 0⟩ := by simp

theorem smul_one (v : Vec2) : v * (1 : ℝ) = v := by
  obtain ⟨a, b⟩ := v; simp

theorem smul_assoc (v : Vec2) (a b : ℝ) : v * a * b = v * (a * b) := by
  obtain ⟨x, y⟩ := v
  simp [mul_assoc]

theorem length_mk (a b : ℝ) : Vec2.length ⟨a, b⟩ = Real.sqrt (a * a + b * b) := rfl

theorem length_nonneg (v : Vec2) : 0 ≤ v.length := Real.sqrt_nonneg _

theorem length_eq_zero_iff (v : Vec2) : v.length = 0 ↔ v = 0 := by
  obtain ⟨a, b⟩ := v
  simp only [length, Real.sqrt_eq_zero', zero_def, Vec2.mk.injEq]
  constructor
  · intro h
    constructor <;> nlinarith [mul_self_nonneg a, mul_self_nonneg b]
  · rintro ⟨rfl, rfl⟩; norm_num

theorem length_pos_of_ne (v : Vec2) (h : v ≠ 0) : 0 < v.length :=
  lt_of_le_of_ne (length_nonneg v) fun h' =>
    h ((length_eq_zero_iff v).mp h'.symm)

theorem length_xaxis (a : ℝ) : Vec2.length ⟨a, 0⟩ = |a| := by
  rw [length_mk, show a * a + 0 * 0 = a * a by ring, Real.sqrt_mul_self_eq_abs]

theorem length_neg (v : Vec2) : (-v).length = v.length := by
  obtain ⟨a, b⟩ := v
  simp only [neg_def, length_mk]
  ring_nf

theorem length_smul (v : Vec2) (s : ℝ) : (v * s).length = v.length * |s| := by
  obtain ⟨a, b⟩ := v
  simp only [smul_def, length_mk]
  rw [show a * s * (a * s) + b * s * (b * s) = (a * a + b * b) * (s * s) by ring,
    Real.sqrt_mul (add_nonneg (mul_self_nonneg a) (mul_self_nonneg b)),
    Real.sqrt_mul_self_eq_abs]

theorem length_sdiv (v : Vec2) (s : ℝ) : (v / s).length = v.length / |s| := by
  obtain ⟨a, b⟩ := v
  simp only [sdiv_def, length_mk]
  rw [show a / s * (a / s) + b / s * (b / s) = (a * a + b * b) / (s * s) by ring,
    Real.sqrt_div (add_nonneg (mul_self_nonneg a) (mul_self_nonneg b)),
    Real.sqrt_mul_self_eq_abs]

theorem length_normalize (v : Vec2) (h : v ≠ 0) : v.normalize.length = 1 := by
  have hp := length_pos_of_ne v h
  rw [normalize, length_sdiv, abs_of_pos hp, div_self hp.ne']

theorem length_normalizeOrZero (v : Vec2) (h : v ≠ 0) :
    v.normalizeOrZero.length = 1 := by
  rw [normalizeOrZero, if_neg h]
  exact length_normalize v h

theorem normalizeOrZero_zero : (0 : Vec2).normalizeOrZero = 0 := by
  rw [normalizeOrZero, if_pos rfl]

theorem length_normalizeOrZero_le (v : Vec2) : v.normalizeOrZero.length ≤ 1 := by
  by_cases h : v = 0
  · subst h; rw [normalizeOrZero_zero]
    simp [length_mk]
  · rw [length_normalizeOrZero v h]

theorem length_fromAngle (θ : ℝ) : (fromAngle θ).length = 1 := by
  rw [fromAngle, length_mk,
    show Real.cos θ * Real.cos θ + Real.sin θ * Real.sin θ
      = Real.sin θ ^ 2 + Real.cos θ ^ 2 by ring,
    Real.sin_sq_add_cos_sq, Real.sqrt_one]

theorem inner_le_sqrt (a b c d : ℝ) :
    a * c + b * d ≤ Real.sqrt ((a * a + b * b) * (c * c + d * d)) :=
  Real.le_sqrt_of_sq_le (by nlinarith [sq_nonneg (a * d - b * c)])

theorem length_add_le (v w : Vec2) : (v + w).length ≤ v.length + w.length := by
  obtain ⟨a, b⟩ := v
  obtain ⟨c, d⟩ := w
  simp only [add_def, length_mk]
  have e1 : Real.sqrt (a * a + b * b) * Real.sqrt (a * a + b * b) = a * a + b * b :=
    Real.mul_self_sqrt (add_nonneg (mul_self_nonneg a) (mul_self_nonneg b))
  have e2 : Real.sqrt (c * c + d * d) * Real.sqrt (c * c + d * d) = c * c + d * d :=
    Real.mul_self_sqrt (add_nonneg (mul_self_nonneg c) (mul_self_nonneg d))
  have e3 : a * c + b * d ≤ Real.sqrt (a * a + b * b) * Real.sqrt (c * c + d * d) := by
    rw [← Real.sqrt_mul (add_nonneg (mul_self_nonneg a) (mul_self_nonneg b))]
    exact inner_le_sqrt a b c d
  calc Real.sqrt ((a + c) * (a + c) + (b + d) * (b + d))
      ≤ Real.sqrt ((Real.sqrt (a * a + b * b) + Real.sqrt (c * c + d * d)) *
          (Real.sqrt (a * a + b * b) + Real.sqrt (c * c + d * d))) := by
        apply Real.sqrt_le_sqrt
        nlinarith [e1, e2, e3]
    _ = |Real.sqrt (a * a + b * b) + Real.sqrt (c * c + d * d)| :=
        Real.sqrt_mul_self_eq_abs _
    _ = Real.sqrt (a * a + b * b) + Real.sqrt (c * c + d * d) :=
        abs_of_nonneg (by positivity)

theorem sub_length_le (v w : Vec2) : v.length - w.length ≤ (v + w).length := by
  have h := length_add_le (v + w) (-w)
  have h2 : v + w + -w = v := by
    obtain ⟨a, b⟩ := v
    obtain ⟨c, d⟩ := w
    simp only [neg_def, add_def, Vec2.mk.injEq]
    constructor <;> ring
  rw [h2, length_neg] at h
  linarith

end Vec2

/-! ## The update pipeline -/

theorem updateBoid_velocity (dt r : ℝ) (b : Boid) (others : List Boid) :
    (updateBoid dt r b others).velocity =
      governSpeed dt r b.min_speed b.max_speed (forcesVelocity dt b others) +
        (backToBounds b.position).normalizeOrZero * b.back_to_bounds_factor * dt := rfl

theorem updateBoid_position (dt r : ℝ) (b : Boid) (others : List Boid) :
    (updateBoid dt r b others).position =
      b.position + (updateBoid dt r b others).velocity * dt := rfl

@[simp] theorem updateBoid_min_speed (dt r : ℝ) (b : Boid) (others : List Boid) :
    (updateBoid dt r b others).min_speed = b.min_speed := rfl

@[simp] theorem updateBoid_max_speed (dt r : ℝ) (b : Boid) (others : List Boid) :
    (updateBoid dt r b others).max_speed = b.max_speed := rfl

@[simp] theorem updateBoid_btbf (dt r : ℝ) (b : Boid) (others : List Boid) :
    (updateBoid dt r b others).back_to_bounds_factor = b.back_to_bounds_factor := rfl

theorem governSpeedFloor_spec (dt r minSpeed : ℝ) (v : Vec2) (hdt : 0 < dt) :
    governSpeedFloor dt r minSpeed v ≠ 0 ∧
      minSpeed ≤ (governSpeedFloor dt r minSpeed v).length := by
  rw [governSpeedFloor, if_pos hdt]
  set vz := if v = 0 then Vec2.fromAngle (r * TAU) * BOID_START_ACCEL * dt else v with hvz
  have hz : vz ≠ 0 := by
    rw [hvz]
    by_cases h : v = 0
    · rw [if_pos h]
      intro hc
      have := (Vec2.length_eq_zero_iff _).mpr hc
      rw [Vec2.length_smul, Vec2.length_smul, Vec2.length_fromAngle] at this
      rw [BOID_START_ACCEL] at this
      have : (10 : ℝ) * dt = 0 := by
        rw [abs_of_nonneg (by norm_num : (0:ℝ) ≤ 10), abs_of_pos hdt] at this
        linarith
      nlinarith
    · rwa [if_neg h]
  by_cases hlt : vz.length < minSpeed
  · rw [if_pos hlt]
    have hmpos : 0 < minSpeed := lt_of_le_of_lt (Vec2.length_nonneg vz) hlt
    have hlen : (vz.normalizeOrZero * minSpeed).length = minSpeed := by
      rw [Vec2.length_smul, Vec2.length_normalizeOrZero vz hz, one_mul,
        abs_of_pos hmpos]
    refine ⟨?_, le_of_eq hlen.symm⟩
    intro hc
    have := (Vec2.length_eq_zero_iff _).mpr hc
    rw [hlen] at this
    exact hmpos.ne' this
  · rw [if_neg hlt]
    exact ⟨hz, le_of_not_lt hlt⟩

theorem governSpeed_bounds (dt r minSpeed maxSpeed : ℝ) (v : Vec2)
    (hdt : 0 < dt) (hmm : minSpeed ≤ maxSpeed) (hmax : 0 ≤ maxSpeed) :
    minSpeed ≤ (governSpeed dt r minSpeed maxSpeed v).length ∧
      (governSpeed dt r minSpeed maxSpeed v).length ≤ maxSpeed := by
  obtain ⟨hz, hge⟩ := governSpeedFloor_spec dt r minSpeed v hdt
  rw [governSpeed]
  set va := governSpeedFloor dt r minSpeed v with hva
  by_cases hgt : maxSpeed < va.length
  · rw [if_pos hgt]
    have : (va.normalize * maxSpeed).length = maxSpeed := by
      rw [Vec2.length_smul, Vec2.length_normalize va hz, one_mul,
        abs_of_nonneg hmax]
    rw [this]
    exact ⟨hmm, le_refl _⟩
  · rw [if_neg hgt]
    exact ⟨hge, le_of_not_lt hgt⟩

theorem btb_term_length_le (p : Vec2) (f dt : ℝ) (hf : 0 ≤ f) (hdt : 0 ≤ dt) :
    ((backToBounds p).normalizeOrZero * f * dt).length ≤ f * dt := by
  rw [Vec2.length_smul, Vec2.length_smul, abs_of_nonneg hf, abs_of_nonneg hdt]
  have h1 := Vec2.length_normalizeOrZero_le (backToBounds p)
  have h2 := Vec2.length_nonneg (backToBounds p).normalizeOrZero
  have h3 : 0 ≤ (1 - (backToBounds p).normalizeOrZero.length) * (f * dt) :=
    mul_nonneg (by linarith) (mul_nonneg hf hdt)
  nlinarith [h3]

theorem updateBoid_speed_window (dt r : ℝ) (b : Boid) (others : List Boid)
    (hdt : 0 < dt) (hmm : b.min_speed ≤ b.max_speed) (hmax : 0 ≤ b.max_speed)
    (hbtb : 0 ≤ b.back_to_bounds_factor) :
    b.min_speed - b.back_to_bounds_factor * dt ≤ (updateBoid dt r b others).velocity.length ∧
      (updateBoid dt r b others).velocity.length ≤
        b.max_speed + b.back_to_bounds_factor * dt := by
  obtain ⟨hlo, hhi⟩ := governSpeed_bounds dt r b.min_speed b.max_speed
    (forcesVelocity dt b others) hdt hmm hmax
  have hw := btb_term_length_le b.position b.back_to_bounds_factor dt hbtb hdt.le
  rw [updateBoid_velocity]
  constructor
  · have := Vec2.sub_length_le
      (governSpeed dt r b.min_speed b.max_speed (forcesVelocity dt b others))
      ((backToBounds b.position).normalizeOrZero * b.back_to_bounds_factor * dt)
    linarith
  · have := Vec2.length_add_le
      (governSpeed dt r b.min_speed b.max_speed (forcesVelocity dt b others))
      ((backToBounds b.position).normalizeOrZero * b.back_to_bounds_factor * dt)
    linarith

/-! ## Concrete evaluations -/

theorem outBoid_core :
    updateBoidCore 1 0 outBoid [] =
      ({ outBoid with velocity := ⟨250, 0⟩, position := ⟨250, 300⟩ }, false) := by
  simp only [updateBoidCore, forcesVelocity, scanBoids, List.foldl_nil, governSpeed,
    governSpeedFloor, backToBounds, outBoid, Vec2.normalizeOrZero, Vec2.normalize]
  simp [Vec2.length_xaxis, MARGIN, SIMULATION_WIDTH, SIMULATION_HEIGHT]
  norm_num [Vec2.length_xaxis, Vec2.mk.injEq]

theorem outBoid_step :
    update 1 (fun _ => 0) [outBoid] =
      [{ outBoid with velocity := ⟨250, 0⟩, position := ⟨250, 300⟩ }] := by
  rw [update, stepAux]
  simp only [List.nil_append, outBoid_core]
  rw [stepAux]

theorem seqA_core :
    updateBoidCore 1 0 seqA [seqB] =
      ({ seqA with velocity := ⟨3, 0⟩, position := ⟨3, 0⟩ }, false) := by
  simp only [updateBoidCore, forcesVelocity, scanBoids, List.foldl_cons, List.foldl_nil,
    processOtherBoid, governSpeed, governSpeedFloor, backToBounds, seqA, seqB,
    Vec2.normalizeOrZero, Vec2.normalize]
  simp [Vec2.length_xaxis, MARGIN, SIMULATION_WIDTH, SIMULATION_HEIGHT]
  norm_num [Vec2.length_xaxis, Vec2.mk.injEq]

theorem seqB_core_seq :
    updateBoidCore 1 0 seqB [{ seqA with velocity := ⟨3, 0⟩, position := ⟨3, 0⟩ }] =
      ({ seqB with velocity := ⟨5, 0⟩, position := ⟨15, 0⟩ }, false) := by
  simp only [updateBoidCore, forcesVelocity, scanBoids, List.foldl_cons, List.foldl_nil,
    processOtherBoid, governSpeed, governSpeedFloor, backToBounds, seqA, seqB,
    Vec2.normalizeOrZero, Vec2.normalize]
  simp [Vec2.length_xaxis, MARGIN, SIMULATION_WIDTH, SIMULATION_HEIGHT]
  norm_num [Vec2.length_xaxis, Vec2.mk.injEq]

theorem seqB_core_snap :
    updateBoidCore 1 0 seqB [seqA] =
      ({ seqB with velocity := ⟨3, 0⟩, position := ⟨13, 0⟩ }, false) := by
  simp only [updateBoidCore, forcesVelocity, scanBoids, List.foldl_cons, List.foldl_nil,
    processOtherBoid, governSpeed, governSpeedFloor, backToBounds, seqA, seqB,
    Vec2.normalizeOrZero, Vec2.normalize]
  simp [Vec2.length_xaxis, MARGIN, SIMULATION_WIDTH, SIMULATION_HEIGHT]
  norm_num [Vec2.length_xaxis, Vec2.mk.injEq]

theorem seq_pair_eval :
    update 1 (fun _ => 0) [seqA, seqB] =
      [{ seqA with velocity := ⟨3, 0⟩, position := ⟨3, 0⟩ },
       { seqB with velocity := ⟨5, 0⟩, position := ⟨15, 0⟩ }] := by
  rw [update, stepAux]
  simp only [List.nil_append, seqA_core]
  rw [stepAux]
  simp only [List.append_nil, List.nil_append, seqB_core_seq]
  rw [stepAux]
  simp

theorem snap_pair_eval :
    updateSnapshot 1 (fun _ => 0) [seqA, seqB] =
      [{ seqA with velocity := ⟨3, 0⟩, position := ⟨3, 0⟩ },
       { seqB with velocity := ⟨3, 0⟩, position := ⟨13, 0⟩ }] := by
  rw [updateSnapshot, updateSnapshotAux]
  simp only [List.take_zero, List.drop_succ_cons, List.drop_zero, List.nil_append]
  rw [seqA_core, updateSnapshotAux]
  simp only [List.take_succ_cons, List.take_zero, List.drop_succ_cons,
    List.drop_nil, List.append_nil]
  rw [seqB_core_snap, updateSnapshotAux]

/-- Membership in the sequential step: every output boid is the update of
some input boid against some list of others and some rng sample. -/
theorem stepAux_mem (dt : ℝ) (rand : ℕ → ℝ) :
    ∀ (todo : List Boid) (k : ℕ) (done : List Boid) (b' : Boid),
      b' ∈ stepAux dt rand k done todo →
      b' ∈ done ∨ ∃ b os r', b ∈ todo ∧ b' = updateBoid dt r' b os := by
  intro todo
  induction todo with
  | nil =>
    intro k done b' h
    rw [stepAux] at h
    exact Or.inl h
  | cons b rest ih =>
    intro k done b' h
    simp only [stepAux] at h
    rcases ih _ _ _ h with hd | ⟨c, os, r', hc, rfl⟩
    · rcases List.mem_append.mp hd with h1 | h2
      · exact Or.inl h1
      · right
        exact ⟨b, done ++ rest, rand k, List.mem_cons_self b rest,
          List.mem_singleton.mp h2⟩
    · exact Or.inr ⟨c, os, r', List.mem_cons_of_mem b hc, rfl⟩

/-! ## The claims -/

/-- C1 (amended): the implemented step is sequential and in place, not a
snapshot-based simultaneous step.  It agrees with the snapshot step on
collections of at most one agent, and on a two-agent collection the second
agent's scan reads the already-updated first agent (not its pre-step
state). -/
theorem seq_step_characterisation :
    (∀ (dt : ℝ) (rand : ℕ → ℝ) (b : Boid),
      update dt rand [b] = updateSnapshot dt rand [b]) ∧
    (∀ (dt : ℝ) (rand : ℕ → ℝ) (a b : Boid),
      update dt rand [a, b] =
        [updateBoid dt (rand 0) a [b],
         updateBoid dt (rand (if (updateBoidCore dt (rand 0) a [b]).2 then 1 else 0)) b
           [updateBoid dt (rand 0) a [b]]]) := by
  constructor
  · intro dt rand b
    rw [update, stepAux]
    simp only [List.nil_append, List.append_nil]
    rw [stepAux, updateSnapshot, updateSnapshotAux]
    simp only [List.take_zero, List.drop_succ_cons, List.drop_nil, List.nil_append]
    rw [updateSnapshotAux]
  · intro dt rand a b
    rw [update, stepAux]
    simp only [List.nil_append]
    rw [stepAux]
    simp only [List.append_nil, List.nil_append]
    rw [stepAux]
    simp [updateBoid]

/-- C1 (counterexample): on a concrete two-boid collection the sequential
in-place step and the snapshot-based simultaneous step disagree — the second
boid's alignment force reads the first boid's already-updated velocity. -/
theorem seq_step_ne_snapshot_step :
    update 1 (fun _ => 0) [seqA, seqB] ≠ updateSnapshot 1 (fun _ => 0) [seqA, seqB] := by
  rw [seq_pair_eval, snap_pair_eval]
  intro h
  simp only [List.cons.injEq, seqA, seqB, Boid.mk.injEq, Vec2.mk.injEq, and_true,
    true_and] at h
  norm_num at h

/-- C2 (amended): with `dt > 0` and sane tunables, every boid's post-step
speed lies within `[min_speed − back_to_bounds_factor·dt,
max_speed + back_to_bounds_factor·dt]`; the exact `[min_speed, max_speed]`
window holds only before the boundary correction is added (see the
counterexample). -/
theorem post_step_speed_window (dt : ℝ) (rand : ℕ → ℝ) (boids : List Boid)
    (hdt : 0 < dt)
    (H : ∀ b ∈ boids, b.min_speed ≤ b.max_speed ∧ 0 ≤ b.max_speed ∧
      0 ≤ b.back_to_bounds_factor) :
    ∀ b' ∈ update dt rand boids,
      b'.min_speed - b'.back_to_bounds_factor * dt ≤ b'.velocity.length ∧
        b'.velocity.length ≤ b'.max_speed + b'.back_to_bounds_factor * dt := by
  intro b' hb'
  rw [update] at hb'
  rcases stepAux_mem dt rand boids 0 [] b' hb' with hd | ⟨b, os, r', hb, rfl⟩
  · simp at hd
  · obtain ⟨h1, h2, h3⟩ := H b hb
    simpa using updateBoid_speed_window dt r' b os hdt h1 h2 h3

/-- C2 (counterexample): a boid beyond the margin, flying at exactly
`max_speed`, ends a `dt = 1` step at speed 250 > `max_speed = 100`, because
the boundary force is added after the clamp. -/
theorem speed_invariant_fails_after_boundary :
    outBoid.min_speed ≤ outBoid.max_speed ∧
    update 1 (fun _ => 0) [outBoid] =
      [{ outBoid with velocity := ⟨250, 0⟩, position := ⟨250, 300⟩ }] ∧
    outBoid.max_speed < Vec2.length ⟨250, 0⟩ := by
  refine ⟨by norm_num [outBoid], outBoid_step, ?_⟩
  rw [Vec2.length_xaxis]
  norm_num [outBoid]

/-- C2 (witness): the window bound evaluated on the concrete boundary
scenario; the upper bound `100 + 150·1 = 250` is attained exactly. -/
theorem post_step_speed_window_witness :
    (10 : ℝ) - 150 * 1 ≤ Vec2.length ⟨250, 0⟩ ∧
      Vec2.length ⟨250, 0⟩ ≤ (100 : ℝ) + 150 * 1 := by
  have h := post_step_speed_window 1 (fun _ => 0) [outBoid] (by norm_num)
    (by intro b hb; rw [List.mem_singleton] at hb; subst hb; norm_num [outBoid])
  have h2 := h { outBoid with velocity := ⟨250, 0⟩, position := ⟨250, 300⟩ }
    (by rw [outBoid_step]; exact List.mem_singleton_self _)
  simpa [outBoid] using h2

/-- C3: with `dt > 0` and sane tunables, the speed bound
`min_speed ≤ ‖v‖ ≤ max_speed` holds exactly at the point after the
speed-governance sub-step (before the boundary correction), and at the end of
the full step the speed exceeds `max_speed` by at most
`back_to_bounds_factor * dt`. -/
theorem governance_exact_then_bounded_overshoot (dt r : ℝ) (b : Boid)
    (others : List Boid) (hdt : 0 < dt) (hmm : b.min_speed ≤ b.max_speed)
    (hmax : 0 ≤ b.max_speed) (hbtb : 0 ≤ b.back_to_bounds_factor) :
    (b.min_speed ≤
        (governSpeed dt r b.min_speed b.max_speed (forcesVelocity dt b others)).length ∧
      (governSpeed dt r b.min_speed b.max_speed (forcesVelocity dt b others)).length ≤
        b.max_speed) ∧
    (updateBoid dt r b others).velocity.length ≤
      b.max_speed + b.back_to_bounds_factor * dt := by
  refine ⟨governSpeed_bounds dt r _ _ _ hdt hmm hmax, ?_⟩
  exact (updateBoid_speed_window dt r b others hdt hmm hmax hbtb).2

/-- C3 (witness): the governance bound instantiated on a concrete boid. -/
theorem governance_exact_then_bounded_overshoot_witness :
    (outBoid.min_speed ≤ (governSpeed 1 0 outBoid.min_speed outBoid.max_speed
        (forcesVelocity 1 outBoid [])).length ∧
      (governSpeed 1 0 outBoid.min_speed outBoid.max_speed
        (forcesVelocity 1 outBoid [])).length ≤ outBoid.max_speed) ∧
    (updateBoid 1 0 outBoid []).velocity.length ≤
      outBoid.max_speed + outBoid.back_to_bounds_factor * 1 :=
  governance_exact_then_bounded_overshoot 1 0 outBoid []
    (by norm_num) (by norm_num [outBoid]) (by norm_num [outBoid])
    (by norm_num [outBoid])

/-- The raw boundary accumulator equals the spec's sum of four conditionally
included unit components. -/
theorem backToBounds_eq_sum (p : Vec2) :
    backToBounds p =
      (if p.x < MARGIN then (⟨1, 0⟩ : Vec2) else 0) +
      (if SIMULATION_WIDTH - MARGIN < p.x then (⟨-1, 0⟩ : Vec2) else 0) +
      (if p.y < MARGIN then (⟨0, 1⟩ : Vec2) else 0) +
      (if SIMULATION_HEIGHT - MARGIN < p.y then (⟨0, -1⟩ : Vec2) else 0) := by
  rw [backToBounds]
  by_cases h1 : p.x < MARGIN <;>
    by_cases h2 : SIMULATION_WIDTH - MARGIN < p.x <;>
      by_cases h3 : p.y < MARGIN <;>
        by_cases h4 : SIMULATION_HEIGHT - MARGIN < p.y <;>
          simp [h1, h2, h3, h4, Vec2.mk.injEq]

/-- C4: the boundary correction added to the velocity equals the spec's
formula — `dt * back_to_bounds_factor` times the unit-normalised sum of the
triggered axis components, or zero when nothing triggered — and an agent at
`position.x = 0` receives a strictly positive x-component from it whenever
`dt` and the factor are positive. -/
theorem boundary_correction_spec (dt r : ℝ) (b : Boid) (others : List Boid) :
    ((updateBoid dt r b others).velocity =
      governSpeed dt r b.min_speed b.max_speed (forcesVelocity dt b others) +
        specBoundaryCorrection b.position b.back_to_bounds_factor dt) ∧
    (b.position.x = 0 → 0 < dt → 0 < b.back_to_bounds_factor →
      0 < (specBoundaryCorrection b.position b.back_to_bounds_factor dt).x) := by
  constructor
  · rw [updateBoid_velocity]
    congr 1
    rw [specBoundaryCorrection]
    rw [← backToBounds_eq_sum, Vec2.normalizeOrZero, Vec2.smul_assoc,
      mul_comm b.back_to_bounds_factor dt]
  · intro hx hdt hf
    have hxm : b.position.x < MARGIN := by rw [hx]; norm_num [MARGIN]
    have hxw : ¬(SIMULATION_WIDTH - MARGIN < b.position.x) := by
      rw [hx]; norm_num [SIMULATION_WIDTH, MARGIN]
    rw [specBoundaryCorrection]
    simp only [hxm, hxw, if_true, if_false]
    by_cases h3 : b.position.y < MARGIN <;>
      by_cases h4 : SIMULATION_HEIGHT - MARGIN < b.position.y <;>
        simp only [h3, h4, if_true, if_false] <;>
          simp [Vec2.mk.injEq]
    all_goals
      refine mul_pos (inv_pos.mpr (Vec2.length_pos_of_ne _ ?_)) (mul_pos hdt hf)
      simp [Vec2.mk.injEq]

/-- C4 (witness): the boundary formula and the positive pull evaluated on
the concrete out-of-margin boid. -/
theorem boundary_correction_spec_witness :
    0 < (specBoundaryCorrection outBoid.position outBoid.back_to_bounds_factor 1).x ∧
    (updateBoid 1 0 outBoid []).velocity =
      governSpeed 1 0 outBoid.min_speed outBoid.max_speed (forcesVelocity 1 outBoid []) +
        specBoundaryCorrection outBoid.position outBoid.back_to_bounds_factor 1 := by
  have h := boundary_correction_spec 1 0 outBoid []
  exact ⟨h.2 (by norm_num [outBoid]) (by norm_num) (by norm_num [outBoid]), h.1⟩

/-- C5: cohesion and alignment are added exactly when the visual-range
neighbour counter is positive, with the spec's formulas — alignment uses the
raw averaged neighbour velocity, not the difference from the boid's own. -/
theorem cohesion_alignment_terms (dt : ℝ) (b : Boid) (others : List Boid) :
    ((scanBoids b others).neighbours = 0 →
      forcesVelocity dt b others =
        b.velocity + (scanBoids b others).close * b.avoidance_factor * dt) ∧
    (0 < (scanBoids b others).neighbours →
      forcesVelocity dt b others =
        b.velocity + (scanBoids b others).close * b.avoidance_factor * dt
          + specCohesionTerm dt b (scanBoids b others)
          + specAlignmentTerm dt b (scanBoids b others)) := by
  constructor
  · intro h
    rw [forcesVelocity]
    simp [h]
  · intro h
    rw [forcesVelocity, specCohesionTerm, specAlignmentTerm]
    rw [if_pos h]

/-- The scan of the two-boid alignment scenario. -/
theorem seqA_scan :
    scanBoids seqA [seqB] = ⟨⟨-10, 0⟩, ⟨10, 0⟩, ⟨2, 0⟩, 1⟩ := by
  simp only [scanBoids, List.foldl_cons, List.foldl_nil, processOtherBoid, seqA, seqB]
  simp [Vec2.length_xaxis]
  norm_num [Vec2.mk.injEq]

/-- C5 (witness): the positive-neighbour branch on a concrete pair. -/
theorem cohesion_alignment_terms_witness :
    forcesVelocity 1 seqA [seqB] =
      seqA.velocity + (scanBoids seqA [seqB]).close * seqA.avoidance_factor * (1 : ℝ)
        + specCohesionTerm 1 seqA (scanBoids seqA [seqB])
        + specAlignmentTerm 1 seqA (scanBoids seqA [seqB]) :=
  (cohesion_alignment_terms 1 seqA [seqB]).2 (by rw [seqA_scan]; norm_num)

/-- A scan over boids that are strictly outside both ranges accumulates
nothing. -/
theorem scan_identity (b : Boid) :
    ∀ (others : List Boid),
      (∀ o ∈ others, b.visual_range < (b.position - o.position).length ∧
        b.protected_range < (b.position - o.position).length) →
      ∀ acc, List.foldl (processOtherBoid b) acc others = acc := by
  intro others
  induction others with
  | nil => intro _ acc; rfl
  | cons o os ih =>
    intro h acc
    have h1 := h o (List.mem_cons_self o os)
    have hstep : processOtherBoid b acc o = acc := by
      simp only [processOtherBoid]
      rw [if_neg (not_le.mpr h1.2), if_neg (not_le.mpr h1.1)]
    rw [List.foldl_cons, hstep]
    exact ih (fun o' ho' => h o' (List.mem_cons_of_mem o ho')) acc

/-- C6 (amended): provided `protected_range ≤ visual_range`, an agent with no
other agent inside its visual range has its velocity changed only by speed
governance and boundary correction. -/
theorem isolated_boid_forces_vanish (dt r : ℝ) (b : Boid) (others : List Boid)
    (hpv : b.protected_range ≤ b.visual_range)
    (hfar : ∀ o ∈ others, b.visual_range < (b.position - o.position).length) :
    (updateBoid dt r b others).velocity =
      governSpeed dt r b.min_speed b.max_speed b.velocity +
        (backToBounds b.position).normalizeOrZero * b.back_to_bounds_factor * dt := by
  have hscan : scanBoids b others = ⟨0, 0, 0, 0⟩ :=
    scan_identity b others
      (fun o ho => ⟨hfar o ho, lt_of_le_of_lt hpv (hfar o ho)⟩) _
  have hforce : forcesVelocity dt b others = b.velocity := by
    simp [forcesVelocity, hscan]
  rw [updateBoid_velocity, hforce]

theorem iso_core :
    updateBoidCore 1 0 isoBoid [isoOther] =
      ({ isoBoid with velocity := ⟨-9, 0⟩, position := ⟨-9, 0⟩ }, false) := by
  simp only [updateBoidCore, forcesVelocity, scanBoids, List.foldl_cons, List.foldl_nil,
    processOtherBoid, governSpeed, governSpeedFloor, backToBounds, isoBoid, isoOther,
    Vec2.normalizeOrZero, Vec2.normalize]
  simp [Vec2.length_xaxis, MARGIN, SIMULATION_WIDTH, SIMULATION_HEIGHT]
  norm_num [Vec2.length_xaxis, Vec2.mk.injEq]

theorem iso_gov_eval :
    governSpeed 1 0 isoBoid.min_speed isoBoid.max_speed isoBoid.velocity +
      (backToBounds isoBoid.position).normalizeOrZero * isoBoid.back_to_bounds_factor * (1 : ℝ)
      = ⟨1, 0⟩ := by
  simp only [governSpeed, governSpeedFloor, backToBounds, isoBoid,
    Vec2.normalizeOrZero, Vec2.normalize]
  simp [Vec2.length_xaxis, MARGIN, SIMULATION_WIDTH, SIMULATION_HEIGHT]
  norm_num [Vec2.length_xaxis, Vec2.mk.injEq]

/-- C6 (counterexample): with `protected_range = 20 > visual_range = 5`, an
agent 10 units away is outside the visual range yet the separation force
still changes the velocity — the update result `(-9,0)` differs from the
governance-plus-boundary-only result `(1,0)`. -/
theorem separation_breaks_isolation :
    isoBoid.visual_range < Vec2.length (isoBoid.position - isoOther.position) ∧
    (updateBoid 1 0 isoBoid [isoOther]).velocity = ⟨-9, 0⟩ ∧
    governSpeed 1 0 isoBoid.min_speed isoBoid.max_speed isoBoid.velocity +
      (backToBounds isoBoid.position).normalizeOrZero * isoBoid.back_to_bounds_factor * (1 : ℝ)
        = ⟨1, 0⟩ ∧
    ((⟨-9, 0⟩ : Vec2) ≠ ⟨1, 0⟩) := by
  refine ⟨?_, ?_, iso_gov_eval, ?_⟩
  · simp only [isoBoid, isoOther, Vec2.sub_def]
    norm_num [Vec2.length_xaxis]
  · rw [updateBoid, iso_core]
  · intro h
    rw [Vec2.mk.injEq] at h
    norm_num at h

/-- C6 (witness): an agent 300 units from its only companion keeps exactly
the governance-plus-boundary velocity. -/
theorem isolated_boid_forces_vanish_witness :
    (updateBoid 1 0 farBoid [farOther]).velocity =
      governSpeed 1 0 farBoid.min_speed farBoid.max_speed farBoid.velocity +
        (backToBounds farBoid.position).normalizeOrZero * farBoid.back_to_bounds_factor * (1 : ℝ) :=
  isolated_boid_forces_vanish 1 0 farBoid [farOther] (by norm_num [farBoid])
    (by
      intro o ho
      rw [List.mem_singleton] at ho
      subst ho
      simp only [farBoid, farOther, Vec2.sub_def]
      norm_num [Vec2.length_xaxis])

/-- One force-free step: a boid at exactly its positive min speed, with no
boid inside either range and inside the margins, just integrates its
unchanged velocity. -/
theorem rest_step (dt r : ℝ) (c : Boid) (os : List Boid)
    (hdt : 0 < dt) (hmin : 0 < c.min_speed) (hmm : c.min_speed ≤ c.max_speed)
    (hspeed : c.velocity.length = c.min_speed)
    (hmargin : insideMargins c.position)
    (hfar : ∀ o ∈ os, c.visual_range < (c.position - o.position).length ∧
      c.protected_range < (c.position - o.position).length) :
    updateBoid dt r c os = { c with position := c.position + c.velocity * dt } := by
  have hscan : scanBoids c os = ⟨0, 0, 0, 0⟩ := scan_identity c os hfar _
  have hforce : forcesVelocity dt c os = c.velocity := by
    simp [forcesVelocity, hscan]
  have hvne : c.velocity ≠ 0 := by
    intro h
    have h0 : Vec2.length 0 = 0 := (Vec2.length_eq_zero_iff 0).mpr rfl
    rw [h, h0] at hspeed
    exact hmin.ne' hspeed.symm
  have hfloor : governSpeedFloor dt r c.min_speed c.velocity = c.velocity := by
    rw [governSpeedFloor, if_pos hdt]
    simp only [if_neg hvne]
    rw [hspeed, if_neg (lt_irrefl c.min_speed)]
  have hgov : governSpeed dt r c.min_speed c.max_speed c.velocity = c.velocity := by
    rw [governSpeed, hfloor, hspeed, if_neg (not_lt.mpr hmm)]
  have hbtb : backToBounds c.position = 0 := by
    obtain ⟨m1, m2, m3, m4⟩ := hmargin
    rw [backToBounds]
    rw [if_neg (not_lt.mpr m1), if_neg (not_lt.mpr m2), if_neg (not_lt.mpr m3),
      if_neg (not_lt.mpr m4)]
  have hv : governSpeed dt r c.min_speed c.max_speed (forcesVelocity dt c os) +
      (backToBounds c.position).normalizeOrZero * c.back_to_bounds_factor * dt =
        c.velocity := by
    rw [hforce, hgov, hbtb, Vec2.normalizeOrZero_zero]
    simp
  have hrest : updateBoid dt r c os = { c with
      velocity := governSpeed dt r c.min_speed c.max_speed (forcesVelocity dt c os) +
        (backToBounds c.position).normalizeOrZero * c.back_to_bounds_factor * dt,
      position := c.position +
        (governSpeed dt r c.min_speed c.max_speed (forcesVelocity dt c os) +
          (backToBounds c.position).normalizeOrZero * c.back_to_bounds_factor * dt) * dt } :=
    rfl
  rw [hv] at hrest
  exact hrest

/-- The straight line advances one `velocity * dt` increment per step. -/
theorem linePoint_succ (b : Boid) (dt : ℝ) (j : ℕ) :
    linePoint b dt (j + 1) = linePoint b dt j + b.velocity * dt := by
  obtain ⟨⟨px, py⟩, ⟨vx, vy⟩, s, mn, mx, pr, vr, af, mf, cf, bf⟩ := b
  simp only [linePoint, Vec2.add_def, Vec2.smul_def, Vec2.mk.injEq]
  constructor <;> push_cast <;> ring

theorem linePoint_zero (b : Boid) (dt : ℝ) : linePoint b dt 0 = b.position := by
  simp [linePoint]

/-- C7 (amended): an agent at exactly its positive min speed, with
`min_speed ≤ max_speed`, whose straight-line points stay inside the margins
and away from every other agent's position at each step, keeps its velocity
vector unchanged over `k` repeated steps and advances by `velocity * dt`
each step. -/
theorem min_speed_rest_state (dt : ℝ) (r : ℕ → ℝ) (os : ℕ → List Boid)
    (b : Boid) (k : ℕ)
    (hdt : 0 < dt) (hmin : 0 < b.min_speed) (hmm : b.min_speed ≤ b.max_speed)
    (hspeed : b.velocity.length = b.min_speed)
    (hmargin : ∀ j, j < k → insideMargins (linePoint b dt j))
    (hfar : ∀ j, j < k → ∀ o ∈ os j,
      b.visual_range < (linePoint b dt j - o.position).length ∧
        b.protected_range < (linePoint b dt j - o.position).length) :
    updateBoidIter dt r os b k = { b with position := linePoint b dt k } := by
  induction k with
  | zero =>
    rw [updateBoidIter, linePoint_zero]
  | succ k ih =>
    have hk := ih (fun j hj => hmargin j (Nat.lt_succ_of_lt hj))
      (fun j hj => hfar j (Nat.lt_succ_of_lt hj))
    rw [updateBoidIter, hk]
    have hstep := rest_step dt (r k) { b with position := linePoint b dt k } (os k)
      hdt hmin hmm hspeed (hmargin k (Nat.lt_succ_self k))
      (hfar k (Nat.lt_succ_self k))
    rw [hstep, linePoint_succ]

theorem stuck_core :
    updateBoidCore 1 0 stuckBoid [] =
      ({ stuckBoid with velocity := ⟨10, 0⟩, position := ⟨310, 300⟩ }, true) := by
  simp only [updateBoidCore, forcesVelocity, scanBoids, List.foldl_nil, governSpeed,
    governSpeedFloor, backToBounds, stuckBoid, Vec2.normalizeOrZero, Vec2.normalize,
    Vec2.fromAngle]
  simp [Vec2.length_xaxis, MARGIN, SIMULATION_WIDTH, SIMULATION_HEIGHT,
    BOID_START_ACCEL]
  norm_num [Vec2.length_xaxis, Vec2.mk.injEq, BOID_START_ACCEL]

theorem stuck_step :
    update 1 (fun _ => 0) [stuckBoid] =
      [{ stuckBoid with velocity := ⟨10, 0⟩, position := ⟨310, 300⟩ }] := by
  rw [update, stepAux]
  simp only [List.nil_append, stuck_core]
  rw [stepAux]

/-- C7 (counterexample): a boid with `min_speed = 0` and zero velocity is
"exactly at min speed", isolated and inside the margins, yet one step changes
its velocity — the zero-velocity randomisation branch gives it speed
`BOID_START_ACCEL * dt = 10 ≠ 0`. -/
theorem rest_state_fails_at_zero_min_speed :
    stuckBoid.velocity.length = stuckBoid.min_speed ∧
    stuckBoid.min_speed ≤ stuckBoid.max_speed ∧
    insideMargins stuckBoid.position ∧
    update 1 (fun _ => 0) [stuckBoid] =
      [{ stuckBoid with velocity := ⟨10, 0⟩, position := ⟨310, 300⟩ }] ∧
    Vec2.length ⟨10, 0⟩ ≠ stuckBoid.min_speed := by
  refine ⟨?_, by norm_num [stuckBoid], ?_, stuck_step, ?_⟩
  · show Vec2.length ⟨0, 0⟩ = (0 : ℝ)
    rw [Vec2.length_xaxis]
    norm_num
  · norm_num [insideMargins, stuckBoid, MARGIN, SIMULATION_WIDTH, SIMULATION_HEIGHT]
  · rw [Vec2.length_xaxis]
    norm_num [stuckBoid]

/-- C7 (witness): two steps of the cruising boid move it 10 units per step
along the x axis with its velocity untouched. -/
theorem min_speed_rest_state_witness :
    updateBoidIter 1 (fun _ => 0) (fun _ => []) cruiseBoid 2 =
      { cruiseBoid with position := linePoint cruiseBoid 1 2 } := by
  apply min_speed_rest_state 1 (fun _ => 0) (fun _ => []) cruiseBoid 2
    (by norm_num) (by norm_num [cruiseBoid]) (by norm_num [cruiseBoid])
  · show Vec2.length ⟨10, 0⟩ = (10 : ℝ)
    rw [Vec2.length_xaxis]
    norm_num
  · intro j hj
    interval_cases j <;>
      norm_num [linePoint, insideMargins, cruiseBoid, MARGIN, SIMULATION_WIDTH,
        SIMULATION_HEIGHT]
  · intro j hj o ho
    simp at ho

/-- With `dt = 0` a single boid's update ignores the others, skips the speed
floor, keeps its position and applies only the max-speed clamp. -/
theorem clamp_core (r : ℝ) (b : Boid) (os : List Boid) :
    updateBoidCore 0 r b os = (clampVelocity b, false) := by
  simp [updateBoidCore, forcesVelocity, governSpeed, governSpeedFloor, clampVelocity]

theorem stepAux_zero (rand : ℕ → ℝ) :
    ∀ (todo : List Boid) (k : ℕ) (done : List Boid),
      stepAux 0 rand k done todo = done ++ todo.map clampVelocity := by
  intro todo
  induction todo with
  | nil =>
    intro k done
    rw [stepAux]
    simp
  | cons b rest ih =>
    intro k done
    rw [stepAux]
    simp only [clamp_core]
    rw [ih]
    simp

/-- C9: `step(0)` is total; it merely maps the max-speed clamp over the
collection — positions are unchanged, the speed floor is skipped, and an
agent faster than its (nonnegative) max speed is rescaled to exactly
`max_speed` even though `dt = 0`. -/
theorem zero_dt_step (rand : ℕ → ℝ) (boids : List Boid) :
    update 0 rand boids = boids.map clampVelocity ∧
    (∀ b ∈ boids, (clampVelocity b).position = b.position) ∧
    (∀ b ∈ boids, 0 ≤ b.max_speed → b.max_speed < b.velocity.length →
      (clampVelocity b).velocity.length = b.max_speed) := by
  refine ⟨?_, fun b _ => rfl, ?_⟩
  · rw [update, stepAux_zero]
    rfl
  · intro b _ hmax hfast
    have hvne : b.velocity ≠ 0 := by
      intro h
      have h0 : Vec2.length 0 = 0 := (Vec2.length_eq_zero_iff 0).mpr rfl
      rw [h, h0] at hfast
      linarith
    show (if b.max_speed < b.velocity.length then b.velocity.normalize * b.max_speed
      else b.velocity).length = b.max_speed
    rw [if_pos hfast, Vec2.length_smul, Vec2.length_normalize _ hvne, one_mul,
      abs_of_nonneg hmax]

/-- C9 (witness): a boid at speed 300 with max speed 100 is clamped to
`(100, 0)` by `step(0)`, its position untouched. -/
theorem zero_dt_step_witness :
    update 0 (fun _ => 0) [fastBoid] = [clampVelocity fastBoid] ∧
    (clampVelocity fastBoid).position = fastBoid.position ∧
    (clampVelocity fastBoid).velocity.length = fastBoid.max_speed ∧
    (clampVelocity fastBoid).velocity = ⟨100, 0⟩ := by
  have h := zero_dt_step (fun _ => 0) [fastBoid]
  refine ⟨by rw [h.1]; rfl,
    h.2.1 fastBoid (List.mem_singleton_self _),
    (h.2.2 fastBoid (List.mem_singleton_self _) (by norm_num [fastBoid]) ?_), ?_⟩
  · show (fastBoid.max_speed : ℝ) < Vec2.length ⟨300, 0⟩
    rw [Vec2.length_xaxis]
    norm_num [fastBoid]
  · show (if fastBoid.max_speed < fastBoid.velocity.length then
      fastBoid.velocity.normalize * fastBoid.max_speed else fastBoid.velocity) = ⟨100, 0⟩
    simp only [fastBoid, Vec2.normalize]
    norm_num [Vec2.length_xaxis]

theorem stepAux_length (dt : ℝ) (rand : ℕ → ℝ) :
    ∀ (todo : List Boid) (k : ℕ) (done : List Boid),
      (stepAux dt rand k done todo).length = done.length + todo.length := by
  intro todo
  induction todo with
  | nil =>
    intro k done
    rw [stepAux]
    simp
  | cons b rest ih =>
    intro k done
    simp only [stepAux]
    rw [ih]
    simp
    omega

/-- C10: the step is total and defined everywhere the source relies on
partial operations — the loop writes exactly one output boid per input boid
(`split_first_mut().unwrap()` always has a boid to take, since the split
index stays below the length), and with `0 ≤ max_speed` the unguarded
`normalize()` in the clamp branch is never reached on a zero vector: adding
an explicit zero guard does not change the result of speed governance. -/
theorem step_safety :
    (∀ (dt : ℝ) (rand : ℕ → ℝ) (boids : List Boid),
      (update dt rand boids).length = boids.length) ∧
    (∀ (boids : List Boid) (i : ℕ), i < boids.length → boids.drop i ≠ []) ∧
    (∀ (dt r minSpeed maxSpeed : ℝ) (v : Vec2), 0 ≤ maxSpeed →
      governSpeed dt r minSpeed maxSpeed v =
        governSpeedGuarded dt r minSpeed maxSpeed v) := by
  refine ⟨?_, ?_, ?_⟩
  · intro dt rand boids
    rw [update, stepAux_length]
    simp
  · intro boids i hi h
    have hlen := List.length_drop i boids
    rw [h] at hlen
    simp at hlen
    omega
  · intro dt r minSpeed maxSpeed v hmax
    rw [governSpeed, governSpeedGuarded]
    by_cases hgt : maxSpeed < (governSpeedFloor dt r minSpeed v).length
    · rw [if_pos hgt, if_pos hgt]
      have hne : governSpeedFloor dt r minSpeed v ≠ 0 := by
        intro h
        rw [h] at hgt
        have h0 : Vec2.length 0 = 0 := (Vec2.length_eq_zero_iff 0).mpr rfl
        rw [h0] at hgt
        linarith
      rw [if_neg hne]
      rfl
    · rw [if_neg hgt, if_neg hgt]

/-- C10 (witness): the safety facts instantiated at concrete inputs. -/
theorem step_safety_witness :
    (update 1 (fun _ => 0) [outBoid]).length = [outBoid].length ∧
    [outBoid].drop 0 ≠ [] ∧
    governSpeed 1 0 10 100 ⟨3, 0⟩ = governSpeedGuarded 1 0 10 100 ⟨3, 0⟩ :=
  ⟨step_safety.1 1 (fun _ => 0) [outBoid],
   step_safety.2.1 [outBoid] 0 (by norm_num),
   step_safety.2.2 1 0 10 100 ⟨3, 0⟩ (by norm_num)⟩

/-- The scan of the spec's deterministic two-boid separation scenario. -/
theorem pair_scan :
    scanBoids pairA [pairB] = ⟨⟨-10, 0⟩, ⟨10, 0⟩, ⟨1, 0⟩, 1⟩ := by
  simp only [scanBoids, List.foldl_cons, List.foldl_nil, processOtherBoid, pairA, pairB]
  simp [Vec2.length_xaxis]
  norm_num [Vec2.mk.injEq]

/-- C8: in the spec's literal scenario (`A = (0,0)`, `B = (10,0)`,
`protected_range = 20 < visual_range = 100`, `avoidance_factor = 1`,
`dt = 1`), A's closeness accumulator is the raw sum `(−10, 0)` and the
separation contribution to A's velocity is `(−10, 0) * 1 * 1 = (−10, 0)`. -/
theorem separation_deterministic_scenario :
    Vec2.length (pairA.position - pairB.position) ≤ pairA.protected_range ∧
    pairA.protected_range < pairA.visual_range ∧
    (scanBoids pairA [pairB]).close = ⟨-10, 0⟩ ∧
    (scanBoids pairA [pairB]).close * pairA.avoidance_factor * (1 : ℝ) = ⟨-10, 0⟩ := by
  refine ⟨?_, by norm_num [pairA], ?_, ?_⟩
  · simp only [pairA, pairB, Vec2.sub_def]
    norm_num [Vec2.length_xaxis]
  · rw [pair_scan]
  · rw [pair_scan]
    simp [pairA]

end Boids
